import Mathlib

/-!
Verification of the connection protocol engine of `src/main.c`
(`serve_connection` and its `ProcessingState` state machine).

Bytes are modelled as natural numbers; the 8-bit wrap of
`response_buffer[i] += 1` is modelled by an explicit `% 256`.
I/O is modelled by a list of read events (one per `recv` call) and a
write oracle `wok : Nat → Bool` telling whether the n-th `send` of the
connection succeeds (write 0 is the initial ready byte).  The function
returns `none` when the read-event trace runs out before the connection
terminates (the real program would block in `recv`).
-/

namespace ConcurrentServer

/-- The `ProcessingState` enum of main.c: `WAIT_FOR_MSG | IN_MSG`. -/
inductive ProcessingState where
  | WAIT_FOR_MSG
  | IN_MSG
  deriving DecidableEq, Repr

/-- The start delimiter byte, ASCII `^` (0x5E). -/
def startDelim : Nat := 94

/-- The end delimiter byte, ASCII `$` (0x24). -/
def endDelim : Nat := 36

/-- The ready byte sent on connect, ASCII `*` (0x2A). -/
def readyByte : Nat := 42

/-- The transform applied to echoed bytes: `response_buffer[i] += 1`
on a `uint8_t`, i.e. increment modulo 256. -/
def increment (b : Nat) : Nat := (b + 1) % 256

/-- One iteration of the `switch (state)` in `serve_connection`:
given the current state and the current byte, the next state and the
list of bytes sent for this byte (empty or a singleton). -/
def stepByte : ProcessingState → Nat → ProcessingState × List Nat
  | ProcessingState.WAIT_FOR_MSG, b =>
      if b = startDelim then (ProcessingState.IN_MSG, [])
      else (ProcessingState.WAIT_FOR_MSG, [])
  | ProcessingState.IN_MSG, b =>
      if b = endDelim then (ProcessingState.WAIT_FOR_MSG, [])
      else (ProcessingState.IN_MSG, [increment b])

/-- The `for (int i = 0; i < response_len; i++)` loop of
`serve_connection`, with all writes assumed successful: processes each
byte in order, threading the state and concatenating the emitted bytes. -/
def processBytes : ProcessingState → List Nat → ProcessingState × List Nat
  | s, [] => (s, [])
  | s, b :: bs =>
      let r := stepByte s b
      let r2 := processBytes r.1 bs
      (r2.1, r.2 ++ r2.2)

/-- The result of one `recv` call: a non-empty chunk of bytes, a clean
EOF (`response_len == 0`), or a read error (`response_len < 0`). -/
inductive ReadEvent where
  | chunk (data : List Nat)
  | eof
  | rerror
  deriving DecidableEq, Repr

/-- The per-chunk byte loop of `serve_connection` with explicit sends:
`wok` tells whether the n-th send of the connection succeeds, `widx` is
the index of the next send, `acc` the bytes delivered so far.  Returns
`Sum.inl out` when a send fails (the function returns -1 with `out`
already delivered), else `Sum.inr` with the updated send index, state
and delivered output. -/
def processChunkSend (wok : Nat → Bool) :
    Nat → ProcessingState → List Nat → List Nat →
    (List Nat) ⊕ (Nat × ProcessingState × List Nat)
  | widx, s, acc, [] => Sum.inr (widx, s, acc)
  | widx, s, acc, b :: bs =>
      match s with
      | ProcessingState.WAIT_FOR_MSG =>
          if b = startDelim then
            processChunkSend wok widx ProcessingState.IN_MSG acc bs
          else
            processChunkSend wok widx ProcessingState.WAIT_FOR_MSG acc bs
      | ProcessingState.IN_MSG =>
          if b = endDelim then
            processChunkSend wok widx ProcessingState.WAIT_FOR_MSG acc bs
          else if wok widx then
            processChunkSend wok (widx + 1) ProcessingState.IN_MSG
              (acc ++ [increment b]) bs
          else
            Sum.inl acc

/-- The `while (true)` read loop of `serve_connection`.  The result is
the pair (return value, bytes delivered to the client); `none` means
the trace of read events ran out while the loop was still running. -/
def serveLoop (sock : Int) (wok : Nat → Bool) :
    Nat → ProcessingState → List Nat → List ReadEvent →
    Option (Int × List Nat)
  | _, _, _, [] => none
  | _, _, acc, ReadEvent.rerror :: _ => some (-1, acc)
  | _, _, acc, ReadEvent.eof :: _ => some (sock, acc)
  | widx, s, acc, ReadEvent.chunk data :: rest =>
      match processChunkSend wok widx s acc data with
      | Sum.inl out => some (-1, out)
      | Sum.inr (widx', s', acc') => serveLoop sock wok widx' s' acc' rest

/-- `serve_connection(client_socket)`: send the ready byte `*` (send 0);
if that fails return -1 having delivered nothing; otherwise enter the
read loop in state `WAIT_FOR_MSG`. -/
def serveConnection (sock : Int) (wok : Nat → Bool)
    (reads : List ReadEvent) : Option (Int × List Nat) :=
  if wok 0 then
    serveLoop sock wok 1 ProcessingState.WAIT_FOR_MSG [readyByte] reads
  else
    some (-1, [])

/-- Write oracle under which every send succeeds. -/
def wokTrue : Nat → Bool := fun _ => true

/-- Processing a concatenation of byte lists threads the state through
the first list and concatenates the outputs. -/
theorem processBytes_append (s : ProcessingState) (xs ys : List Nat) :
    processBytes s (xs ++ ys) =
      ((processBytes (processBytes s xs).1 ys).1,
       (processBytes s xs).2 ++ (processBytes (processBytes s xs).1 ys).2) := by
  induction xs generalizing s with
  | nil => simp [processBytes]
  | cons b bs ih => simp [processBytes, ih]

/-- When every send succeeds, the per-chunk send loop never fails and
computes exactly what `processBytes` computes, appended to `acc`. -/
theorem processChunkSend_wokTrue (data : List Nat) :
    ∀ (widx : Nat) (s : ProcessingState) (acc : List Nat),
    ∃ widx', processChunkSend wokTrue widx s acc data =
      Sum.inr (widx', (processBytes s data).1, acc ++ (processBytes s data).2) := by
  induction data with
  | nil =>
    intro widx s acc
    exact ⟨widx, by simp [processChunkSend, processBytes]⟩
  | cons b bs ih =>
    intro widx s acc
    cases s with
    | WAIT_FOR_MSG =>
      by_cases hb : b = startDelim
      · obtain ⟨w', hw⟩ := ih widx ProcessingState.IN_MSG acc
        exact ⟨w', by simp [processChunkSend, processBytes, stepByte, hb, hw]⟩
      · obtain ⟨w', hw⟩ := ih widx ProcessingState.WAIT_FOR_MSG acc
        exact ⟨w', by simp [processChunkSend, processBytes, stepByte, hb, hw]⟩
    | IN_MSG =>
      by_cases hb : b = endDelim
      · obtain ⟨w', hw⟩ := ih widx ProcessingState.WAIT_FOR_MSG acc
        exact ⟨w', by simp [processChunkSend, processBytes, stepByte, hb, hw]⟩
      · obtain ⟨w', hw⟩ := ih (widx + 1) ProcessingState.IN_MSG (acc ++ [increment b])
        exact ⟨w', by simp [processChunkSend, processBytes, stepByte, hb, hw, wokTrue]⟩

/-- When every send succeeds, consuming a run of chunk reads is the same
as processing their concatenation in one go. -/
theorem serveLoop_wokTrue_chunks (sock : Int) (chunks : List (List Nat)) :
    ∀ (tail : List ReadEvent) (widx : Nat) (s : ProcessingState) (acc : List Nat),
    ∃ widx', serveLoop sock wokTrue widx s acc (chunks.map ReadEvent.chunk ++ tail) =
      serveLoop sock wokTrue widx' (processBytes s chunks.flatten).1
        (acc ++ (processBytes s chunks.flatten).2) tail := by
  induction chunks with
  | nil =>
    intro tail widx s acc
    exact ⟨widx, by simp [processBytes]⟩
  | cons c cs ih =>
    intro tail widx s acc
    obtain ⟨w1, hw1⟩ := processChunkSend_wokTrue c widx s acc
    obtain ⟨w2, hw2⟩ := ih tail w1 (processBytes s c).1 (acc ++ (processBytes s c).2)
    refine ⟨w2, ?_⟩
    simp only [List.map_cons, List.cons_append, serveLoop, hw1, List.flatten_cons,
      processBytes_append, List.append_assoc, List.append_eq]
    simpa [List.append_assoc] using hw2

/-- When every send succeeds, a run of chunks followed by a clean EOF
returns the socket with the ready byte followed by the processed output. -/
theorem serveConnection_wokTrue_eof (sock : Int) (chunks : List (List Nat)) :
    serveConnection sock wokTrue (chunks.map ReadEvent.chunk ++ [ReadEvent.eof]) =
      some (sock, readyByte :: (processBytes ProcessingState.WAIT_FOR_MSG chunks.flatten).2) := by
  obtain ⟨w, hw⟩ := serveLoop_wokTrue_chunks sock chunks [ReadEvent.eof] 1
    ProcessingState.WAIT_FOR_MSG [readyByte]
  simp [serveConnection, wokTrue, hw, serveLoop]

/-- When every send succeeds, a run of chunks followed by a read error
returns -1 with the ready byte followed by the processed output; the
events after the error are never consumed. -/
theorem serveConnection_wokTrue_rerror (sock : Int) (chunks : List (List Nat))
    (rest : List ReadEvent) :
    serveConnection sock wokTrue (chunks.map ReadEvent.chunk ++ ReadEvent.rerror :: rest) =
      some (-1, readyByte :: (processBytes ProcessingState.WAIT_FOR_MSG chunks.flatten).2) := by
  obtain ⟨w, hw⟩ := serveLoop_wokTrue_chunks sock chunks (ReadEvent.rerror :: rest) 1
    ProcessingState.WAIT_FOR_MSG [readyByte]
  simp [serveConnection, wokTrue, hw, serveLoop]

/-- The per-chunk send loop only ever appends to the delivered output. -/
theorem processChunkSend_acc (wok : Nat → Bool) (data : List Nat) :
    ∀ (widx : Nat) (s : ProcessingState) (acc : List Nat),
      (∀ out, processChunkSend wok widx s acc data = Sum.inl out → ∃ t, out = acc ++ t) ∧
      (∀ w' s' acc', processChunkSend wok widx s acc data = Sum.inr (w', s', acc') →
        ∃ t, acc' = acc ++ t) := by
  induction data with
  | nil =>
    intro widx s acc
    constructor
    · intro out h
      simp [processChunkSend] at h
    · intro w' s' acc' h
      simp [processChunkSend] at h
      exact ⟨[], by simp [h.2.2]⟩
  | cons b bs ih =>
    intro widx s acc
    cases s with
    | WAIT_FOR_MSG =>
      by_cases hb : b = startDelim
      · constructor
        · intro out h
          rw [processChunkSend, if_pos hb] at h
          exact (ih widx ProcessingState.IN_MSG acc).1 out h
        · intro w' s' acc' h
          rw [processChunkSend, if_pos hb] at h
          exact (ih widx ProcessingState.IN_MSG acc).2 w' s' acc' h
      · constructor
        · intro out h
          rw [processChunkSend, if_neg hb] at h
          exact (ih widx ProcessingState.WAIT_FOR_MSG acc).1 out h
        · intro w' s' acc' h
          rw [processChunkSend, if_neg hb] at h
          exact (ih widx ProcessingState.WAIT_FOR_MSG acc).2 w' s' acc' h
    | IN_MSG =>
      by_cases hb : b = endDelim
      · constructor
        · intro out h
          rw [processChunkSend, if_pos hb] at h
          exact (ih widx ProcessingState.WAIT_FOR_MSG acc).1 out h
        · intro w' s' acc' h
          rw [processChunkSend, if_pos hb] at h
          exact (ih widx ProcessingState.WAIT_FOR_MSG acc).2 w' s' acc' h
      · by_cases hwk : wok widx
        · constructor
          · intro out h
            rw [processChunkSend, if_neg hb, if_pos hwk] at h
            obtain ⟨t, ht⟩ :=
              (ih (widx + 1) ProcessingState.IN_MSG (acc ++ [increment b])).1 out h
            exact ⟨increment b :: t, by simp [ht]⟩
          · intro w' s' acc' h
            rw [processChunkSend, if_neg hb, if_pos hwk] at h
            obtain ⟨t, ht⟩ :=
              (ih (widx + 1) ProcessingState.IN_MSG (acc ++ [increment b])).2 w' s' acc' h
            exact ⟨increment b :: t, by simp [ht]⟩
        · constructor
          · intro out h
            rw [processChunkSend, if_neg hb, if_neg hwk] at h
            exact ⟨[], by simp [Sum.inl.injEq] at h; simp [h]⟩
          · intro w' s' acc' h
            rw [processChunkSend, if_neg hb, if_neg hwk] at h
            simp at h

/-- The read loop only ever appends to the delivered output: whatever
it returns starts with what had already been delivered. -/
theorem serveLoop_acc (sock : Int) (wok : Nat → Bool) (reads : List ReadEvent) :
    ∀ (widx : Nat) (s : ProcessingState) (acc : List Nat) (r : Int) (out : List Nat),
      serveLoop sock wok widx s acc reads = some (r, out) → ∃ t, out = acc ++ t := by
  induction reads with
  | nil =>
    intro widx s acc r out h
    simp [serveLoop] at h
  | cons e rest ih =>
    intro widx s acc r out h
    cases e with
    | rerror =>
      simp [serveLoop] at h
      exact ⟨[], by simp [h.2]⟩
    | eof =>
      simp [serveLoop] at h
      exact ⟨[], by simp [h.2]⟩
    | chunk data =>
      rw [serveLoop] at h
      cases hc : processChunkSend wok widx s acc data with
      | inl o =>
        rw [hc] at h
        simp at h
        obtain ⟨t, ht⟩ := (processChunkSend_acc wok data widx s acc).1 o hc
        exact ⟨t, by rw [← h.2, ht]⟩
      | inr tr =>
        obtain ⟨w', s', acc'⟩ := tr
        rw [hc] at h
        obtain ⟨t1, ht1⟩ := (processChunkSend_acc wok data widx s acc).2 w' s' acc' hc
        obtain ⟨t2, ht2⟩ := ih w' s' acc' r out h
        exact ⟨t1 ++ t2, by rw [ht2, ht1, List.append_assoc]⟩

/-- Bytes consumed in `IN_MSG` that are not the end delimiter are all
echoed incremented, in order. -/
theorem processBytes_no_delim (bs : List Nat) (hbs : ∀ x ∈ bs, x ≠ endDelim) :
    processBytes ProcessingState.IN_MSG bs = (ProcessingState.IN_MSG, bs.map increment) := by
  induction bs with
  | nil => simp [processBytes]
  | cons b bs ih =>
    have hb : b ≠ endDelim := hbs b (by simp)
    have ih' := ih (fun x hx => hbs x (by simp [hx]))
    simp [processBytes, stepByte, hb, ih']

/-- C1 (chunk-boundary invariance): for every input byte sequence and
every two ways of splitting it into non-empty chunks delivered to
successive reads, the engine's full behaviour — return value and the
echoed bytes in order — is identical; the state threaded between reads
is only the two-valued `ProcessingState` (as `serveLoop` shows). -/
theorem chunk_boundary_invariance (sock : Int) (chunks1 chunks2 : List (List Nat))
    (h1 : ∀ c ∈ chunks1, c ≠ []) (h2 : ∀ c ∈ chunks2, c ≠ [])
    (hflat : chunks1.flatten = chunks2.flatten) :
    serveConnection sock wokTrue (chunks1.map ReadEvent.chunk ++ [ReadEvent.eof]) =
      serveConnection sock wokTrue (chunks2.map ReadEvent.chunk ++ [ReadEvent.eof]) := by
  rw [serveConnection_wokTrue_eof, serveConnection_wokTrue_eof, hflat]

/-- Witness for C1 at the input `^ab$` split as `^a|b$` and `^|ab|$`. -/
theorem chunk_boundary_invariance_witness :
    (∀ c ∈ [[94, 97], [98, 36]], c ≠ ([] : List Nat)) ∧
    (∀ c ∈ [[94], [97, 98], [36]], c ≠ ([] : List Nat)) ∧
    ([[94, 97], [98, 36]] : List (List Nat)).flatten =
      ([[94], [97, 98], [36]] : List (List Nat)).flatten ∧
    serveConnection 5 wokTrue
        (([[94, 97], [98, 36]] : List (List Nat)).map ReadEvent.chunk ++ [ReadEvent.eof]) =
      serveConnection 5 wokTrue
        (([[94], [97, 98], [36]] : List (List Nat)).map ReadEvent.chunk ++ [ReadEvent.eof]) :=
  ⟨by decide, by decide, by decide,
   chunk_boundary_invariance 5 [[94, 97], [98, 36]] [[94], [97, 98], [36]]
     (by decide) (by decide) (by decide)⟩

/-- C2: every byte `b` consumed in `IN_MSG` with `b ≠ $` emits exactly
one byte `(b + 1) % 256` and stays in `IN_MSG`; a run of such bytes is
echoed in input order; the transform is the pure per-byte `increment`,
which wraps 255 to 0. -/
theorem in_message_transform (b : Nat) (bs : List Nat)
    (hb : b ≠ endDelim) (hbs : ∀ x ∈ bs, x ≠ endDelim) :
    stepByte ProcessingState.IN_MSG b = (ProcessingState.IN_MSG, [increment b]) ∧
    increment b = (b + 1) % 256 ∧
    increment 255 = 0 ∧
    processBytes ProcessingState.IN_MSG bs = (ProcessingState.IN_MSG, bs.map increment) := by
  refine ⟨by simp [stepByte, hb], rfl, by decide, processBytes_no_delim bs hbs⟩

/-- Witness for C2 at `b = 255` and the in-message run `[255, 0, 120]`. -/
theorem in_message_transform_witness :
    stepByte ProcessingState.IN_MSG 255 = (ProcessingState.IN_MSG, [increment 255]) ∧
    processBytes ProcessingState.IN_MSG [255, 0, 120] =
      (ProcessingState.IN_MSG, [255, 0, 120].map increment) :=
  ⟨(in_message_transform 255 [255, 0, 120] (by decide) (by decide)).1,
   (in_message_transform 255 [255, 0, 120] (by decide) (by decide)).2.2.2⟩

/-- C3 counterexample: the delimiter value `$` (0x24) does appear in the
output stream — the in-message byte `#` (0x23) is echoed incremented as
0x24.  On input `^#` the engine's output is exactly `[36]`. -/
theorem delimiter_value_in_output :
    ¬ (∀ b ∈ (processBytes ProcessingState.WAIT_FOR_MSG [94, 35]).2,
        b ≠ startDelim ∧ b ≠ endDelim) := by decide

/-- C3 amended: a byte acting as a delimiter (`^` in `WAIT_FOR_MSG`,
`$` in `IN_MSG`) is consumed and emits nothing, in any state each input
byte either emits nothing or emits its own increment (so a delimiter is
never echoed as itself); but the delimiter values can still occur in the
output as increments of 0x5D and 0x23. -/
theorem delimiters_never_echoed :
    stepByte ProcessingState.WAIT_FOR_MSG startDelim = (ProcessingState.IN_MSG, []) ∧
    stepByte ProcessingState.IN_MSG endDelim = (ProcessingState.WAIT_FOR_MSG, []) ∧
    (∀ s : ProcessingState, ∀ b : Nat, ∀ o ∈ (stepByte s b).2, o = increment b) ∧
    increment 93 = startDelim ∧ increment 35 = endDelim := by
  refine ⟨by decide, by decide, ?_, by decide, by decide⟩
  intro s b o ho
  cases s with
  | WAIT_FOR_MSG =>
    by_cases hb : b = startDelim <;> simp [stepByte, hb] at ho
  | IN_MSG =>
    by_cases hb : b = endDelim
    · simp [stepByte, hb] at ho
    · simp [stepByte, hb] at ho
      exact ho

/-- Witness for C3's amended theorem at `s = IN_MSG`, `b = 93`:
the emitted byte 0x5E is the increment of the input, not an echo of a
delimiter. -/
theorem delimiters_never_echoed_witness :
    startDelim ∈ (stepByte ProcessingState.IN_MSG 93).2 ∧ startDelim = increment 93 :=
  ⟨by decide, delimiters_never_echoed.2.2.1 ProcessingState.IN_MSG 93 startDelim (by decide)⟩

/-- C4: `^` arriving in `IN_MSG` is ordinary data — it is incremented
and echoed and the state stays `IN_MSG`; on input `^ab^c$` the outputs
are exactly the increments of `a`, `b`, `^`, `c` (five in, four out). -/
theorem caret_in_message_is_data :
    stepByte ProcessingState.IN_MSG startDelim =
      (ProcessingState.IN_MSG, [increment startDelim]) ∧
    processBytes ProcessingState.WAIT_FOR_MSG [94, 97, 98, 94, 99, 36] =
      (ProcessingState.WAIT_FOR_MSG,
        [increment 97, increment 98, increment 94, increment 99]) ∧
    [94, 97, 98, 94, 99, 36].length = 5 + 1 ∧
    (processBytes ProcessingState.WAIT_FOR_MSG [94, 97, 98, 94, 99, 36]).2.length = 4 := by
  refine ⟨by decide, by decide, by decide, by decide⟩

/-- C5: every byte consumed in `WAIT_FOR_MSG` emits nothing; `^` moves
the state to `IN_MSG`; any other byte (`$` included) leaves the state
unchanged and is not an error (the step function is total). -/
theorem waiting_produces_no_output (b : Nat) (hb : b ≠ startDelim) :
    (∀ c : Nat, (stepByte ProcessingState.WAIT_FOR_MSG c).2 = []) ∧
    stepByte ProcessingState.WAIT_FOR_MSG startDelim = (ProcessingState.IN_MSG, []) ∧
    stepByte ProcessingState.WAIT_FOR_MSG b = (ProcessingState.WAIT_FOR_MSG, []) := by
  refine ⟨?_, by decide, by simp [stepByte, hb]⟩
  intro c
  by_cases hc : c = startDelim <;> simp [stepByte, hc]

/-- Witness for C5 at `b = $` (0x24): a `$` in `WAIT_FOR_MSG` is
consumed with no output and no state change. -/
theorem waiting_produces_no_output_witness :
    (stepByte ProcessingState.WAIT_FOR_MSG 36).2 = [] ∧
    stepByte ProcessingState.WAIT_FOR_MSG 36 = (ProcessingState.WAIT_FOR_MSG, []) :=
  ⟨(waiting_produces_no_output 36 (by decide)).1 36,
   (waiting_produces_no_output 36 (by decide)).2.2⟩

/-- C6 (end-to-end scenario): the client first receives the single
ready byte `*`; sending `hello^abc$world^xy$` then yields exactly
`bcd` followed by `yz`, and `hello` and `world` (arriving in
`WAIT_FOR_MSG`) produce no output. -/
theorem end_to_end_scenario (sock : Int) :
    serveConnection sock wokTrue
        [ReadEvent.chunk [104, 101, 108, 108, 111, 94, 97, 98, 99, 36,
                          119, 111, 114, 108, 100, 94, 120, 121, 36],
         ReadEvent.eof] =
      some (sock, [readyByte, 98, 99, 100, 121, 122]) ∧
    (processBytes ProcessingState.WAIT_FOR_MSG [104, 101, 108, 108, 111]).2 = [] ∧
    (processBytes ProcessingState.WAIT_FOR_MSG [119, 111, 114, 108, 100]).2 = [] :=
  ⟨rfl, by decide, by decide⟩

/-- C7: before any read the engine sends the single ready byte `*`; if
that initial send fails it returns -1 with nothing delivered and without
consuming any read event; whenever the initial send succeeds and the
engine returns, its delivered output starts with the ready byte. -/
theorem ready_byte_first (sock : Int) (wok : Nat → Bool) (reads : List ReadEvent)
    (r : Int) (out : List Nat) :
    (wok 0 = false → serveConnection sock wok reads = some (-1, [])) ∧
    (serveConnection sock wok reads = some (r, out) → wok 0 = true →
      ∃ t, out = readyByte :: t) := by
  constructor
  · intro h0
    simp [serveConnection, h0]
  · intro h h0
    rw [serveConnection, if_pos h0] at h
    obtain ⟨t, ht⟩ := serveLoop_acc sock wok reads 1 ProcessingState.WAIT_FOR_MSG
      [readyByte] r out h
    exact ⟨t, by simpa using ht⟩

/-- Witness for C7: a failing initial send returns -1 with no output
even with reads pending, and a successful run's output starts with `*`. -/
theorem ready_byte_first_witness :
    serveConnection 5 (fun _ => false) [ReadEvent.chunk [94, 97]] = some (-1, []) ∧
    (∃ t, [readyByte, 98] = readyByte :: t) :=
  ⟨(ready_byte_first 5 (fun _ => false) [ReadEvent.chunk [94, 97]] (-1) []).1 rfl,
   (ready_byte_first 5 wokTrue [ReadEvent.chunk [94, 97], ReadEvent.eof] 5
      [readyByte, 98]).2 rfl rfl⟩

/-- C8: a zero-byte read (clean EOF) stops the loop and returns success
(the socket, not -1) with every in-message byte received so far echoed
incremented — in particular for an unterminated message such as `^ab`
with no closing `$`, where no error is raised. -/
theorem clean_eof_success (sock : Int) (chunks : List (List Nat)) :
    serveConnection sock wokTrue (chunks.map ReadEvent.chunk ++ [ReadEvent.eof]) =
      some (sock, readyByte :: (processBytes ProcessingState.WAIT_FOR_MSG chunks.flatten).2) ∧
    serveConnection sock wokTrue [ReadEvent.chunk [94, 97, 98], ReadEvent.eof] =
      some (sock, [readyByte, increment 97, increment 98]) :=
  ⟨serveConnection_wokTrue_eof sock chunks, rfl⟩

/-- C9: a failed read makes the engine return -1 (`ReadFailed`)
immediately: events after the error are never consumed (the result does
not depend on `rest`), and every byte delivered before the failure —
the ready byte and all processed output — remains delivered. -/
theorem read_error_terminal (sock : Int) (chunks : List (List Nat))
    (rest rest' : List ReadEvent) :
    serveConnection sock wokTrue (chunks.map ReadEvent.chunk ++ ReadEvent.rerror :: rest) =
      some (-1, readyByte :: (processBytes ProcessingState.WAIT_FOR_MSG chunks.flatten).2) ∧
    serveConnection sock wokTrue (chunks.map ReadEvent.chunk ++ ReadEvent.rerror :: rest) =
      serveConnection sock wokTrue (chunks.map ReadEvent.chunk ++ ReadEvent.rerror :: rest') :=
  ⟨serveConnection_wokTrue_rerror sock chunks rest,
   by rw [serveConnection_wokTrue_rerror, serveConnection_wokTrue_rerror]⟩

/-- C10 (implicit interface): `serve_connection` returns the client
socket descriptor itself on clean EOF, and -1 both for a failed send
(initial or mid-stream) and for a failed read — so the two error kinds
are indistinguishable from the return value alone. -/
theorem return_value_convention (sock : Int) (chunks : List (List Nat))
    (rest reads : List ReadEvent) :
    (serveConnection sock wokTrue (chunks.map ReadEvent.chunk ++ [ReadEvent.eof])).map
        Prod.fst = some sock ∧
    (serveConnection sock wokTrue
        (chunks.map ReadEvent.chunk ++ ReadEvent.rerror :: rest)).map Prod.fst = some (-1) ∧
    serveConnection sock (fun _ => false) reads = some (-1, []) ∧
    (serveConnection sock (fun n => n == 0)
        (ReadEvent.chunk [94, 97] :: rest)).map Prod.fst = some (-1) :=
  ⟨by rw [serveConnection_wokTrue_eof]; rfl,
   by rw [serveConnection_wokTrue_rerror]; rfl,
   rfl, rfl⟩

end ConcurrentServer
